import Mathlib

/-!
Shallow embedding of the `TFTrainer` class (`src/transformers/trainer_tf.py`)
and proofs about its control-loop logic.

Modelling conventions:
* Floating-point scalars (losses, gradients, metric values) are modelled as
  rationals: the properties checked here are exact algebraic identities of the
  orchestration code, not statements about rounding.
* Python dicts become ordered association lists (insertion order preserved,
  update-in-place on existing keys, append on new keys), matching CPython
  semantics used by `_prediction_loop`.
* `tf.data.Dataset` becomes a finite element list plus a flag recording
  whether `repeat(-1)` was applied; `cache`/`prefetch` are identity on
  contents, and `shuffle` is modelled as the identity arrangement because
  every property below depends only on the element count and the repeat flag,
  never on order.
* Externals that live outside `src/` (`GradientAccumulator` from
  `optimization_tf.py`, `n_gpu` from `training_args_tf.py`) are modelled from
  the spec, and say so in their doc comments.
-/

namespace TFTrainerSpec

/-! ## A Python-dict model (string keys, rational values) -/

/-- Ordered association list standing in for a Python `dict` with string keys:
insertion order is preserved, assignment updates an existing key in place and
appends a fresh key at the end. -/
abbrev Dict := List (String × ℚ)

/-- The key list of a dict, in insertion order (`list(d.keys())`). -/
def keys (m : Dict) : List String := m.map Prod.fst

/-- `k in d` for the dict model. -/
def containsKey : Dict → String → Bool
  | [], _ => false
  | p :: m, k => (p.1 == k) || containsKey m k

/-- Python `d[k] = v`: update in place if the key exists, else append. -/
def dsinsert (m : Dict) (k : String) (v : ℚ) : Dict :=
  if containsKey m k then m.map (fun p => if p.1 == k then (k, v) else p)
  else m ++ [(k, v)]

/-- The removal part of Python `d.pop(k)`. -/
def dserase (m : Dict) (k : String) : Dict := m.filter (fun p => p.1 != k)

/-- Python `d[k]` / the value part of `d.pop(k)`. -/
def dslookup : Dict → String → Option ℚ
  | [], _ => none
  | p :: m, k => if p.1 == k then some p.2 else dslookup m k

/-- `key.startswith("eval_")` from `_prediction_loop`. -/
def startsWithEval (k : String) : Bool := "eval_".data.isPrefixOf k.data

/-- Whether `needle` occurs contiguously inside `hay`; used to state that an
error message names a missing dataset split. -/
def substringOf (needle : List Char) : List Char → Bool
  | [] => needle.isEmpty
  | c :: rest => needle.isPrefixOf (c :: rest) || substringOf needle rest

/-- The renaming pass of `_prediction_loop` (lines 247-249):
`for key in list(metrics.keys()): if not key.startswith("eval_"):
metrics[f"eval_{key}"] = metrics.pop(key)`.  The first argument is the key
snapshot taken before the loop.  A key absent from the dict would raise
`KeyError` in Python; that branch is unreachable because the snapshot is taken
from the dict itself, and is modelled as a skip. -/
def renameLoop : List String → Dict → Dict
  | [], m => m
  | k :: ks, m =>
    if startsWithEval k then renameLoop ks m
    else
      match dslookup m k with
      | some v => renameLoop ks (dsinsert (dserase m k) ("eval_" ++ k) v)
      | none => renameLoop ks m

/-- Lines 245-249 of `_prediction_loop`: insert the final batch loss under
`"eval_loss"`, then rename every key lacking the `"eval_"` marker. -/
def finalizeMetrics (computed : Dict) (loss : ℚ) : Dict :=
  let m1 := dsinsert computed "eval_loss" loss
  renameLoop (keys m1) m1

/-! ## Dataset and configuration model -/

/-- A `tf.data.Dataset`: finite element list plus a flag recording whether
`repeat(-1)` was applied (an infinitely repeating dataset never exhausts). -/
structure TFDataset (α : Type) where
  data : List α
  repeats : Bool
deriving DecidableEq

/-- `dataset.cache()`: identity on contents. -/
def TFDataset.cache {α : Type} (d : TFDataset α) : TFDataset α := d

/-- `dataset.shuffle(buffer)`: permutes elements.  Every property proved in
this file depends only on the element count and the repeat flag, never on the
arrangement, so the permutation is modelled as the identity arrangement. -/
def TFDataset.shuffle {α : Type} (d : TFDataset α) (bufferSize : Nat) : TFDataset α := d

/-- `dataset.prefetch(...)`: identity on contents. -/
def TFDataset.prefetch {α : Type} (d : TFDataset α) : TFDataset α := d

/-- `dataset.repeat(-1)`: the dataset restarts indefinitely. -/
def TFDataset.repeatForever {α : Type} (d : TFDataset α) : TFDataset α := ⟨d.data, true⟩

/-- Chunking worker for `batch`: `fuel` bounds the recursion and is
instantiated with the list length, which suffices because every step consumes
at least one element whenever `bs ≥ 1`. -/
def batchListAux {α : Type} (bs : Nat) (drop : Bool) : Nat → List α → List (List α)
  | 0, _ => []
  | _ + 1, [] => []
  | fuel + 1, l =>
    if l.length < bs then (if drop then [] else [l])
    else l.take bs :: batchListAux bs drop fuel (l.drop bs)

/-- `dataset.batch(batch_size, drop_remainder)` on the element list: groups
consecutive elements into batches of `bs`; the final partial batch is kept
unless `drop` is set. -/
def batchList {α : Type} (bs : Nat) (drop : Bool) (l : List α) : List (List α) :=
  batchListAux bs drop l.length l

/-- `dataset.batch(batch_size, drop_remainder)` as a dataset operation. -/
def TFDataset.batch {α : Type} (d : TFDataset α) (bs : Nat) (drop : Bool) :
    TFDataset (List α) :=
  ⟨batchList bs drop d.data, d.repeats⟩

/-- The distribution strategy, reduced to the one observable the trainer
reads: `num_replicas_in_sync`. -/
structure Strategy where
  numReplicasInSync : Nat
deriving DecidableEq

/-- The slice of `TFTrainingArguments` that `TFTrainer` reads in the code
under study. -/
structure TFTrainingArguments where
  maxSteps : Int
  trainBatchSize : Nat
  evalBatchSize : Nat
  dataloaderDropLast : Bool
  gradientAccumulationSteps : Nat
  numTrainEpochs : Nat
  maxGradNorm : ℚ
  strategy : Strategy
deriving DecidableEq

/-- Modelled from the spec: `TFTrainingArguments.n_gpu` is defined in
`training_args_tf.py`, which is not under `src/`.  Per the spec (§4.2 with §6:
"adds model-internal regularization losses scaled by 1/replica-count" where
"replica-count is the number of replicas the distribution strategy runs in
sync"), the device count the arguments expose is the strategy's
`num_replicas_in_sync`. -/
def TFTrainingArguments.n_gpu (args : TFTrainingArguments) : Nat :=
  args.strategy.numReplicasInSync

/-- Everything `get_train_tfdataset` produces: the counted example number, the
derived step budget, the batched iterable handed to the training loop
(`experimental_distribute_dataset` shards it without changing contents), and
the value left in the `self.train_dataset` field afterwards. -/
structure TrainPrep (α : Type) where
  numTrainExamples : Nat
  trainSteps : Nat
  ds : TFDataset (List α)
  newTrainDataset : TFDataset α
deriving DecidableEq

/-- `get_train_tfdataset` (lines 83-104).  Ordering is exactly the source's:
the batched pipeline `ds` is built from the current `self.train_dataset`
first, and only afterwards, when `max_steps > 0`, is the `self.train_dataset`
field reassigned to `self.train_dataset.repeat(-1)` — the already-built `ds`
is returned unchanged.  `math.ceil(n / b)` for a positive integer `b` is
`(n + b - 1) / b` in integer arithmetic. -/
def get_train_tfdataset {α : Type} (args : TFTrainingArguments)
    (train_dataset : Option (TFDataset α)) : Except String (TrainPrep α) :=
  match train_dataset with
  | none => .error "Trainer: training requires a train_dataset."
  | some td =>
    let num_train_examples := td.data.length
    let train_steps : Nat :=
      if 0 < args.maxSteps then args.maxSteps.toNat
      else (num_train_examples + args.trainBatchSize - 1) / args.trainBatchSize
    let ds := ((td.cache.shuffle num_train_examples).batch
        args.trainBatchSize args.dataloaderDropLast).prefetch
    let new_train_dataset := if 0 < args.maxSteps then td.repeatForever else td
    .ok ⟨num_train_examples, train_steps, ds, new_train_dataset⟩

/-- `get_eval_tfdataset` (lines 106-117): error if neither the argument nor
the trainer field supplies a dataset, else cache + batch + prefetch the
argument when present, the field otherwise. -/
def get_eval_tfdataset {α : Type} (args : TFTrainingArguments)
    (eval_dataset self_eval_dataset : Option (TFDataset α)) :
    Except String (TFDataset (List α)) :=
  match eval_dataset, self_eval_dataset with
  | none, none => .error "Trainer: evaluation requires an eval_dataset."
  | some e, _ => .ok ((e.cache.batch args.evalBatchSize args.dataloaderDropLast).prefetch)
  | none, some e => .ok ((e.cache.batch args.evalBatchSize args.dataloaderDropLast).prefetch)

/-! ## Gradient accumulation and the apply step -/

/-- `tf.clip_by_value(t, lo, hi)`. -/
def clip_by_value (x lo hi : ℚ) : ℚ := min (max x lo) hi

/-- Modelled from the spec: `GradientAccumulator` is imported from
`optimization_tf.py`, which is not under `src/`.  Per spec §2/§3 it "holds a
running sum of per-variable gradients and a step counter", where `step_count`
"equals the number of micro-batches folded in since last reset" and
`accumulated_gradients` "is the elementwise sum (not average) over those
micro-batches across all replicas".  One rational per trainable variable. -/
structure GradientAccumulator where
  step : Nat
  gradients : List ℚ
deriving DecidableEq

/-- Modelled from the spec: `reset()` "zeroes both after every optimizer
apply" (spec §3). -/
def GradientAccumulator.reset (acc : GradientAccumulator) : GradientAccumulator :=
  ⟨0, acc.gradients.map (fun _ => 0)⟩

/-- Modelled from the spec: one accumulation micro-batch in which every one of
the `R` replicas feeds the same per-replica gradient list `g`; the step
counter advances by one micro-batch and the elementwise sum absorbs all `R`
replica contributions (spec §3). -/
def accumulateUniform (R : Nat) (g : List ℚ) (acc : GradientAccumulator) :
    GradientAccumulator :=
  ⟨acc.step + 1, List.zipWith (· + ·) acc.gradients (g.map (fun x => (R : ℚ) * x))⟩

/-- Accumulator state after `N` such uniform micro-batches starting from a
freshly reset accumulator. -/
def gaUniform (R : Nat) (g : List ℚ) : Nat → GradientAccumulator
  | 0 => ⟨0, g.map (fun _ => 0)⟩
  | n + 1 => accumulateUniform R g (gaUniform R g n)

/-- `_step` (lines 377-386): divide every accumulated gradient by
`gradient_accumulator.step * num_replicas_in_sync`, clip elementwise into
`[-max_grad_norm, max_grad_norm]`, hand the clipped list to
`optimizer.apply_gradients`, reset the accumulator.  Returns the applied
gradient list and the accumulator left behind. -/
def _step (numReplicasInSync : Nat) (maxGradNorm : ℚ) (acc : GradientAccumulator) :
    List ℚ × GradientAccumulator :=
  ((acc.gradients.map
      (fun gradient => gradient / ((acc.step * numReplicasInSync : Nat) : ℚ))).map
      (fun grad => clip_by_value grad (-maxGradNorm) maxGradNorm),
   acc.reset)

/-! ## The micro-batch generator and the epoch loop -/

/-- Trace of `_training_steps` (lines 363-370) composed with
`_accumulate_next_gradients` (lines 388-402), processing one finite dataset
pass.  Index `i` enumerates micro-batches; `accStep` is the accumulator's step
counter.  Each micro-batch is first accumulated (the generator
`_accumulate_next_gradients` accumulates before yielding its loss), then when
`i % gradient_accumulation_steps == 0` the apply runs — reading the step
counter, resetting it — and the loss is yielded.  Each produced triple is one
yielded cycle: `(micro-batch index, accumulator step count at apply, yielded
loss)`; on every other cycle nothing reaches the outer loop. -/
def _training_steps_from {L : Type} (gas : Nat) : Nat → Nat → List L → List (Nat × Nat × L)
  | _, _, [] => []
  | i, accStep, b :: rest =>
    let accStep' := accStep + 1
    if i % gas == 0 then (i, accStep', b) :: _training_steps_from gas (i + 1) 0 rest
    else _training_steps_from gas (i + 1) accStep' rest

/-- `_training_steps` over a dataset pass, starting at index 0 with a freshly
reset accumulator (`train` calls `gradient_accumulator.reset()` first). -/
def _training_steps {L : Type} (gas : Nat) (microBatches : List L) : List (Nat × Nat × L) :=
  _training_steps_from gas 0 0 microBatches

/-- Inner loop of one epoch of `train` (lines 330-361): consume the yields of
`_training_steps`; after each yield the optimizer's iteration counter (the
global step, advanced once per apply) is read, and the epoch breaks once
`global_step % train_steps == 0`.  Returns (number of training steps run this
epoch, final global step); the yield list ending first models
dataset exhaustion ending the generator. -/
def epochLoop {L : Type} (train_steps : Nat) : List L → Nat → Nat × Nat
  | [], g => (0, g)
  | _ :: rest, g =>
    let g' := g + 1
    if g' % train_steps == 0 then (1, g')
    else
      let r := epochLoop train_steps rest g'
      (r.1 + 1, r.2)

/-- Line 313 of `train`: `epochs = 1 if self.args.max_steps > 0 else
self.args.num_train_epochs`. -/
def epochsToRun (args : TFTrainingArguments) : Nat :=
  if 0 < args.maxSteps then 1 else args.numTrainEpochs

/-- Lines 305-309 of `train`: starting epoch derived from the restored
optimizer iteration counter. -/
def start_epoch (iterations train_steps : Nat) : Nat :=
  if 0 < iterations then iterations / train_steps + 1 else 1

/-- Number of training steps the first epoch of `train` actually runs, for a
fresh start (global step 0): prepare the train dataset, feed its batched
iterable through `_training_steps`, and consume the yields with the epoch
loop.  The iterable iterated here is `prep.ds` — the one `get_train_tfdataset`
returned. -/
def trainFirstEpochStepsRun (args : TFTrainingArguments) (td : TFDataset Nat) :
    Except String Nat := do
  let prep ← get_train_tfdataset args (some td)
  let ylds := _training_steps args.gradientAccumulationSteps prep.ds.data
  .ok (epochLoop prep.trainSteps ylds 0).1

/-! ## Forward step -/

/-- `_run_model` (lines 429-443), after the model call returned
`(loss, logits)` and with `model.losses` as `model_losses`:
`loss += sum(self.model.losses) * (1.0 / self.args.n_gpu)`. -/
def _run_model (n_gpu : Nat) (model_losses : List ℚ) (loss : ℚ) (logits : List ℚ) :
    ℚ × List ℚ :=
  (loss + model_losses.sum * (1 / (n_gpu : ℚ)), logits)

/-! ## Prediction / evaluation loop -/

/-- What one batch contributes to `_prediction_loop`: the cross-replica mean
loss the model produces for it, its logits rows and its label rows (the
single-replica path of the source; the multi-replica path concatenates
per-replica shards in replica order, which is the same concatenation). -/
structure EvalBatch where
  loss : ℚ
  logits : List ℚ
  labels : List ℚ
deriving DecidableEq

/-- One iteration of the batch loop of `_prediction_loop` (lines 203-238):
record the batch loss; unless loss-only mode is on, append the logits and
labels to the growing arrays (`np.append(_, _, axis=0)` on a `None` start is
just the new rows). -/
def predFoldStep (lossOnly : Bool)
    (st : Option (List ℚ) × Option (List ℚ) × Option ℚ) (b : EvalBatch) :
    Option (List ℚ) × Option (List ℚ) × Option ℚ :=
  if lossOnly then (st.1, st.2.1, some b.loss)
  else (some (st.1.getD [] ++ b.logits), some (st.2.1.getD [] ++ b.labels), some b.loss)

/-- The whole batch loop of `_prediction_loop`: `(preds, label_ids, loss)`
after all batches, each starting as absent (`None` / unbound `loss`). -/
def predLoopAccum (lossOnly : Bool) (batches : List EvalBatch) :
    Option (List ℚ) × Option (List ℚ) × Option ℚ :=
  batches.foldl (predFoldStep lossOnly) (none, none, none)

/-- `preds` after the batch loop. -/
def predsOf (lossOnly : Bool) (batches : List EvalBatch) : Option (List ℚ) :=
  (predLoopAccum lossOnly batches).1

/-- `label_ids` after the batch loop. -/
def labelIdsOf (lossOnly : Bool) (batches : List EvalBatch) : Option (List ℚ) :=
  (predLoopAccum lossOnly batches).2.1

/-- The last batch's loss, if any batch ran. -/
def lastLossOf (lossOnly : Bool) (batches : List EvalBatch) : Option ℚ :=
  (predLoopAccum lossOnly batches).2.2

/-- Lines 240-243 of `_prediction_loop`: call `compute_metrics` only when it
exists and both `preds` and `label_ids` are populated; otherwise the metrics
dict starts empty. -/
def computedMetrics (cm : Option (List ℚ → List ℚ → Dict)) (lossOnly : Bool)
    (batches : List EvalBatch) : Dict :=
  match cm, predsOf lossOnly batches, labelIdsOf lossOnly batches with
  | some f, some p, some l => f p l
  | _, _, _ => []

/-- The `PredictionOutput` record returned by `_prediction_loop`. -/
structure PredOut where
  predictions : Option (List ℚ)
  label_ids : Option (List ℚ)
  metrics : Dict
deriving DecidableEq

/-- `_prediction_loop` (lines 184-251).  When no batch ran, the Python code
raises `NameError` at `metrics["eval_loss"] = loss.numpy()` (`loss` was never
bound), so no output is produced; that is the `none` result. -/
def _prediction_loop (cm : Option (List ℚ → List ℚ → Dict)) (lossOnly : Bool)
    (batches : List EvalBatch) : Option PredOut :=
  match lastLossOf lossOnly batches with
  | none => none
  | some loss =>
    some ⟨predsOf lossOnly batches, labelIdsOf lossOnly batches,
          finalizeMetrics (computedMetrics cm lossOnly batches) loss⟩

/-- `evaluate` (lines 264-278) up to its logging side effects: build the eval
dataset (erroring when it is missing), run the model over every batch
(`modelFn` stands for the replicated forward pass) and the shared prediction
loop. -/
def evaluate {α : Type} (args : TFTrainingArguments)
    (eval_dataset self_eval_dataset : Option (TFDataset α))
    (modelFn : List α → EvalBatch) (cm : Option (List ℚ → List ℚ → Dict))
    (lossOnly : Bool) : Except String (Option PredOut) := do
  let ds ← get_eval_tfdataset args eval_dataset self_eval_dataset
  .ok (_prediction_loop cm lossOnly (ds.data.map modelFn))

/-! ## Saving -/

/-- `save_model` (lines 458-469): the `output_dir` parameter only feeds the
log message; validation rejects a model that is not a `TFPreTrainedModel`;
the save itself targets `self.args.output_dir`.  Returns `(logged directory,
directory actually saved to)`. -/
def save_model (modelIsTFPreTrainedModel : Bool) (output_dir : Option String)
    (argsOutputDir : String) : Except String (String × String) :=
  let dir := output_dir.getD argsOutputDir
  if modelIsTFPreTrainedModel then .ok (dir, argsOutputDir)
  else .error "Trainer.model appears to not be a PreTrainedModel"

/-! ## Helper lemmas: lists -/

lemma list_map_congr {α β : Type} (f g : α → β) (l : List α)
    (h : ∀ x ∈ l, f x = g x) : l.map f = l.map g := by
  induction l with
  | nil => rfl
  | cons a l ih =>
    simp only [List.map_cons]
    rw [h a (by simp), ih (fun x hx => h x (by simp [hx]))]

lemma zipWith_add_map (f h : ℚ → ℚ) (l : List ℚ) :
    List.zipWith (· + ·) (l.map f) (l.map h) = l.map (fun x => f x + h x) := by
  induction l with
  | nil => rfl
  | cons a l ih => simp [ih]

lemma isPrefixOf_append_self (l t : List Char) : l.isPrefixOf (l ++ t) = true := by
  induction l with
  | nil => simp [List.isPrefixOf]
  | cons a l ih => simp [List.isPrefixOf, ih]

lemma startsWithEval_append (k : String) : startsWithEval ("eval_" ++ k) = true := by
  have h : ("eval_" ++ k).data = "eval_".data ++ k.data := rfl
  simp [startsWithEval, h, isPrefixOf_append_self]

/-! ## Helper lemmas: the dict model -/

lemma containsKey_iff (m : Dict) (k : String) : containsKey m k = true ↔ k ∈ keys m := by
  induction m with
  | nil => simp [containsKey, keys]
  | cons p m ih =>
    simp only [containsKey, Bool.or_eq_true, beq_iff_eq, ih, keys, List.map_cons,
      List.mem_cons]
    constructor
    · rintro (h | h)
      · exact Or.inl h.symm
      · exact Or.inr h
    · rintro (h | h)
      · exact Or.inl h.symm
      · exact Or.inr h

lemma keys_dsinsert_self (m : Dict) (k : String) (v : ℚ) : k ∈ keys (dsinsert m k v) := by
  unfold dsinsert
  by_cases h : containsKey m k = true
  · rw [if_pos h]
    simp only [keys]
    obtain ⟨p, hp, hpk⟩ := List.mem_map.mp ((containsKey_iff m k).mp h)
    refine List.mem_map.mpr ⟨(k, v), List.mem_map.mpr ⟨p, hp, ?_⟩, rfl⟩
    simp [hpk]
  · rw [if_neg h]
    simp only [keys, List.map_append]
    exact List.mem_append_right _ (by simp)

lemma mem_keys_dsinsert_of_mem (m : Dict) (k : String) (v : ℚ) (a : String)
    (ha : a ∈ keys m) : a ∈ keys (dsinsert m k v) := by
  unfold dsinsert
  by_cases h : containsKey m k = true
  · rw [if_pos h]
    simp only [keys] at ha ⊢
    obtain ⟨p, hp, hpa⟩ := List.mem_map.mp ha
    refine List.mem_map.mpr ⟨(if p.1 == k then (k, v) else p), List.mem_map.mpr ⟨p, hp, rfl⟩, ?_⟩
    by_cases hpk : (p.1 == k) = true
    · have hk : p.1 = k := beq_iff_eq.mp hpk
      rw [if_pos hpk]
      show k = a
      rw [← hk]
      exact hpa
    · rw [if_neg hpk]
      exact hpa
  · rw [if_neg h]
    simp only [keys, List.map_append]
    exact List.mem_append_left _ ha

lemma mem_keys_of_dsinsert (m : Dict) (k : String) (v : ℚ) (a : String)
    (ha : a ∈ keys (dsinsert m k v)) : a ∈ keys m ∨ a = k := by
  unfold dsinsert at ha
  by_cases h : containsKey m k = true
  · rw [if_pos h] at ha
    simp only [keys] at ha ⊢
    obtain ⟨q, hq, hqa⟩ := List.mem_map.mp ha
    obtain ⟨p, hp, rfl⟩ := List.mem_map.mp hq
    by_cases hpk : (p.1 == k) = true
    · right
      rw [if_pos hpk] at hqa
      exact hqa.symm
    · left
      rw [if_neg hpk] at hqa
      exact List.mem_map.mpr ⟨p, hp, hqa⟩
  · rw [if_neg h] at ha
    simp only [keys, List.map_append] at ha
    rcases List.mem_append.mp ha with h1 | h1
    · exact Or.inl h1
    · right
      simpa using h1

lemma mem_keys_dserase (m : Dict) (k a : String) (ha : a ∈ keys m) (hne : a ≠ k) :
    a ∈ keys (dserase m k) := by
  simp only [keys, dserase] at ha ⊢
  obtain ⟨p, hp, hpa⟩ := List.mem_map.mp ha
  refine List.mem_map.mpr ⟨p, List.mem_filter.mpr ⟨hp, ?_⟩, hpa⟩
  simp only [bne_iff_ne, ne_eq, hpa]
  exact hne

lemma mem_keys_of_dserase (m : Dict) (k a : String) (ha : a ∈ keys (dserase m k)) :
    a ∈ keys m ∧ a ≠ k := by
  simp only [keys, dserase] at ha ⊢
  obtain ⟨p, hp, hpa⟩ := List.mem_map.mp ha
  have h2 := List.mem_filter.mp hp
  refine ⟨List.mem_map.mpr ⟨p, h2.1, hpa⟩, ?_⟩
  have h3 : p.1 ≠ k := bne_iff_ne.mp h2.2
  rw [← hpa]
  exact h3

lemma dslookup_some_of_mem (m : Dict) (k : String) (h : k ∈ keys m) :
    ∃ v, dslookup m k = some v := by
  induction m with
  | nil => simp [keys] at h
  | cons p m ih =>
    by_cases hpk : (p.1 == k) = true
    · exact ⟨p.2, by simp [dslookup, hpk]⟩
    · have hm : k ∈ keys m := by
        simp only [keys, List.map_cons, List.mem_cons] at h
        rcases h with h | h
        · exact absurd (beq_iff_eq.mpr h.symm) (by simpa using hpk)
        · exact h
      obtain ⟨v, hv⟩ := ih hm
      exact ⟨v, by simp [dslookup, hpk, hv]⟩

lemma not_mem_of_dslookup_none (m : Dict) (k : String) (h : dslookup m k = none) :
    k ∉ keys m := by
  intro hk
  obtain ⟨v, hv⟩ := dslookup_some_of_mem m k hk
  rw [hv] at h
  cases h

/-! ## Helper lemmas: the rename loop -/

lemma renameLoop_keeps_prefixed (ks : List String) (m : Dict) (k : String)
    (hp : startsWithEval k = true) (hm : k ∈ keys m) : k ∈ keys (renameLoop ks m) := by
  induction ks generalizing m with
  | nil => simpa [renameLoop] using hm
  | cons k' ks ih =>
    cases hsw : startsWithEval k' with
    | false =>
      cases hl : dslookup m k' with
      | none => simpa [renameLoop, hsw, hl] using ih m hm
      | some v =>
        have hne : k ≠ k' := by
          intro he
          rw [he, hsw] at hp
          cases hp
        have hm' : k ∈ keys (dsinsert (dserase m k') ("eval_" ++ k') v) :=
          mem_keys_dsinsert_of_mem _ _ _ _ (mem_keys_dserase m k' k hm hne)
        simpa [renameLoop, hsw, hl] using ih _ hm'
    | true => simpa [renameLoop, hsw] using ih m hm

lemma renameLoop_renames (ks : List String) (k : String) (hp : startsWithEval k = false) :
    ∀ m : Dict, k ∈ ks → k ∈ keys m → ("eval_" ++ k) ∈ keys (renameLoop ks m) := by
  induction ks with
  | nil =>
    intro m hk hm
    cases hk
  | cons k' ks ih =>
    intro m hk hm
    cases hsw : startsWithEval k' with
    | true =>
      have hk2 : k ∈ ks := by
        rcases List.mem_cons.mp hk with rfl | h
        · rw [hp] at hsw
          cases hsw
        · exact h
      simpa [renameLoop, hsw] using ih m hk2 hm
    | false =>
      by_cases hkk : k = k'
      · subst hkk
        obtain ⟨v, hv⟩ := dslookup_some_of_mem m k hm
        have h1 : ("eval_" ++ k) ∈ keys (dsinsert (dserase m k) ("eval_" ++ k) v) :=
          keys_dsinsert_self _ _ _
        have h2 := renameLoop_keeps_prefixed ks _ ("eval_" ++ k) (startsWithEval_append k) h1
        simpa [renameLoop, hsw, hv] using h2
      · have hk2 : k ∈ ks := by
          rcases List.mem_cons.mp hk with h | h
          · exact absurd h hkk
          · exact h
        cases hl : dslookup m k' with
        | none => simpa [renameLoop, hsw, hl] using ih m hk2 hm
        | some v =>
          have hm' : k ∈ keys (dsinsert (dserase m k') ("eval_" ++ k') v) :=
            mem_keys_dsinsert_of_mem _ _ _ _ (mem_keys_dserase m k' k hm hkk)
          simpa [renameLoop, hsw, hl] using ih _ hk2 hm'

lemma renameLoop_all_prefixed (ks : List String) (m : Dict)
    (hinv : ∀ a ∈ keys m, startsWithEval a = true ∨ a ∈ ks) :
    ∀ a ∈ keys (renameLoop ks m), startsWithEval a = true := by
  induction ks generalizing m with
  | nil =>
    intro a ha
    rcases hinv a (by simpa [renameLoop] using ha) with h | h
    · exact h
    · cases h
  | cons k' ks ih =>
    intro a ha
    cases hsw : startsWithEval k' with
    | true =>
      refine ih m ?_ a (by simpa [renameLoop, hsw] using ha)
      intro b hb
      rcases hinv b hb with h | h
      · exact Or.inl h
      · rcases List.mem_cons.mp h with rfl | h2
        · exact Or.inl hsw
        · exact Or.inr h2
    | false =>
      cases hl : dslookup m k' with
      | none =>
        refine ih m ?_ a (by simpa [renameLoop, hsw, hl] using ha)
        intro b hb
        rcases hinv b hb with h | h
        · exact Or.inl h
        · rcases List.mem_cons.mp h with rfl | h2
          · exact absurd hb (not_mem_of_dslookup_none m b hl)
          · exact Or.inr h2
      | some v =>
        refine ih (dsinsert (dserase m k') ("eval_" ++ k') v) ?_ a
          (by simpa [renameLoop, hsw, hl] using ha)
        intro b hb
        rcases mem_keys_of_dsinsert _ _ _ _ hb with h | rfl
        · have h2 := mem_keys_of_dserase _ _ _ h
          rcases hinv b h2.1 with h3 | h3
          · exact Or.inl h3
          · rcases List.mem_cons.mp h3 with rfl | h4
            · exact absurd rfl h2.2
            · exact Or.inr h4
        · exact Or.inl (startsWithEval_append k')

/-! ## Helper lemmas: finalizeMetrics -/

lemma finalizeMetrics_mem_eval_loss (computed : Dict) (loss : ℚ) :
    "eval_loss" ∈ keys (finalizeMetrics computed loss) :=
  renameLoop_keeps_prefixed _ _ _ (by decide) (keys_dsinsert_self computed "eval_loss" loss)

lemma finalizeMetrics_keeps_prefixed (computed : Dict) (loss : ℚ) (k : String)
    (hk : k ∈ keys computed) (hp : startsWithEval k = true) :
    k ∈ keys (finalizeMetrics computed loss) :=
  renameLoop_keeps_prefixed _ _ _ hp (mem_keys_dsinsert_of_mem _ _ _ _ hk)

lemma finalizeMetrics_renames (computed : Dict) (loss : ℚ) (k : String)
    (hk : k ∈ keys computed) (hp : startsWithEval k = false) :
    ("eval_" ++ k) ∈ keys (finalizeMetrics computed loss) :=
  renameLoop_renames _ _ hp _ (mem_keys_dsinsert_of_mem _ _ _ _ hk)
    (mem_keys_dsinsert_of_mem _ _ _ _ hk)

lemma finalizeMetrics_all_prefixed (computed : Dict) (loss : ℚ) :
    ∀ a ∈ keys (finalizeMetrics computed loss), startsWithEval a = true :=
  renameLoop_all_prefixed _ _ (fun a ha => Or.inr ha)

/-! ## Helper lemmas: arithmetic of the apply cadence -/

lemma mod_sub_one_add_one (i gas : Nat) (hg : 1 ≤ gas) (h : i % gas ≠ 0) :
    (i - 1) % gas + 1 = i % gas := by
  have hi : i ≠ 0 := by
    rintro rfl
    simp at h
  have h1 : 1 ≤ i % gas := Nat.one_le_iff_ne_zero.mpr h
  have h2 : i % gas < gas := Nat.mod_lt _ (by omega)
  have hd := Nat.div_add_mod i gas
  have hsub : i - 1 = gas * (i / gas) + (i % gas - 1) := by omega
  rw [hsub, Nat.mul_add_mod, Nat.mod_eq_of_lt (by omega)]
  omega

lemma mod_sub_one_of_dvd (i gas : Nat) (hg : 1 ≤ gas) (hi : i ≠ 0) (h : i % gas = 0) :
    (i - 1) % gas = gas - 1 := by
  have hd := Nat.div_add_mod i gas
  have hA : gas * (i / gas) = i := by omega
  have hqpos : i / gas ≠ 0 := by
    intro h0
    rw [h0, Nat.mul_zero] at hA
    omega
  obtain ⟨q', hq'⟩ := Nat.exists_eq_succ_of_ne_zero hqpos
  have hi2 : i = gas * q' + gas := by
    rw [← hA, hq', Nat.mul_succ]
  have hsub : i - 1 = gas * q' + (gas - 1) := by omega
  rw [hsub, Nat.mul_add_mod, Nat.mod_eq_of_lt (by omega)]

lemma training_steps_from_spec {L : Type} (gas : Nat) (hg : 1 ≤ gas) (batches : List L) :
    ∀ i : Nat, ∀ e ∈ _training_steps_from gas i ((i - 1) % gas) batches,
      e.1 % gas = 0 ∧ e.2.1 = (if e.1 = 0 then 1 else gas) := by
  induction batches with
  | nil =>
    intro i e he
    simp [_training_steps_from] at he
  | cons b rest ih =>
    intro i e he
    by_cases h : i % gas = 0
    · have hb : (i % gas == 0) = true := by simp [h]
      simp only [_training_steps_from, hb, if_true, List.mem_cons] at he
      rcases he with rfl | he
      · refine ⟨h, ?_⟩
        show (i - 1) % gas + 1 = if i = 0 then 1 else gas
        by_cases hi : i = 0
        · subst hi
          simp
        · rw [if_neg hi, mod_sub_one_of_dvd i gas hg hi h]
          omega
      · refine ih (i + 1) e ?_
        have h1 : ((i + 1) - 1) % gas = 0 := by simpa using h
        rw [h1]
        exact he
    · have hb : (i % gas == 0) = false := by simpa using h
      simp [_training_steps_from, hb] at he
      refine ih (i + 1) e ?_
      have h1 : ((i + 1) - 1) % gas = (i - 1) % gas + 1 := by
        simpa using (mod_sub_one_add_one i gas hg h).symm
      rw [h1]
      exact he

/-! ## Helper lemmas: gradient accumulation -/

lemma gaUniform_eq (R : Nat) (g : List ℚ) (N : Nat) :
    gaUniform R g N = ⟨N, g.map (fun x => (N : ℚ) * (R : ℚ) * x)⟩ := by
  induction N with
  | zero =>
    show (⟨0, g.map fun _ => 0⟩ : GradientAccumulator) = _
    simp
  | succ n ih =>
    show accumulateUniform R g (gaUniform R g n) = _
    rw [ih]
    unfold accumulateUniform
    dsimp only
    rw [zipWith_add_map]
    congr 1
    apply list_map_congr
    intro x hx
    push_cast
    ring

lemma clip_id (x m : ℚ) (h1 : -m ≤ x) (h2 : x ≤ m) : clip_by_value x (-m) m = x := by
  unfold clip_by_value
  rw [max_eq_left h1, min_eq_left h2]

lemma clip_cases (x m : ℚ) (hm : 0 ≤ m) :
    clip_by_value x (-m) m = if m < x then m else if x < -m then -m else x := by
  unfold clip_by_value
  by_cases h1 : m < x
  · rw [if_pos h1, max_eq_left (by linarith : -m ≤ x), min_eq_right (le_of_lt h1)]
  · rw [if_neg h1]
    by_cases h2 : x < -m
    · rw [if_pos h2, max_eq_right (le_of_lt h2), min_eq_left (by linarith : -m ≤ m)]
    · rw [if_neg h2, max_eq_left (not_lt.mp h2), min_eq_left (not_lt.mp h1)]

/-! ## Helper lemmas: prediction loop -/

lemma foldl_predFoldStep_true (batches : List EvalBatch) :
    ∀ st : Option (List ℚ) × Option (List ℚ) × Option ℚ,
      (batches.foldl (predFoldStep true) st).1 = st.1 ∧
      (batches.foldl (predFoldStep true) st).2.1 = st.2.1 := by
  induction batches with
  | nil => exact fun st => ⟨rfl, rfl⟩
  | cons b rest ih =>
    intro st
    have hstep : predFoldStep true st b = (st.1, st.2.1, some b.loss) := rfl
    simpa [List.foldl_cons, hstep] using ih (st.1, st.2.1, some b.loss)

/-! ## Claim theorems -/

/-- C1 counterexample: with `gradient_accumulation_steps = 2` and three
micro-batches, the apply at micro-batch index 0 runs with an accumulator that
has folded in exactly 1 micro-batch, not 2 — the claim that every apply cycle
folds in exactly `gradient_accumulation_steps` micro-batches before the
optimizer update is false for the first cycle. -/
theorem first_apply_single_microbatch_cex :
    ¬ (∀ e ∈ _training_steps 2 [(10 : Nat), 20, 30], e.2.1 = 2) := by
  decide

/-- C1 (amended): losses reach the outer loop exactly on cycles where an
apply occurred (each trace entry of `_training_steps` is one such
yield-with-apply cycle, everything else yields nothing), applies occur exactly
at micro-batch indices `i` with `i % gradient_accumulation_steps == 0`, and at
every apply the accumulator has folded in exactly
`gradient_accumulation_steps` micro-batches — except the very first apply (at
index 0), which has folded in exactly 1. -/
theorem training_steps_apply_cadence {L : Type} (gas : Nat) (hg : 1 ≤ gas)
    (microBatches : List L) :
    ∀ e ∈ _training_steps gas microBatches,
      e.1 % gas = 0 ∧ e.2.1 = (if e.1 = 0 then 1 else gas) := by
  have h := training_steps_from_spec gas hg microBatches 0
  rwa [show (0 - 1) % gas = 0 from by simp] at h

/-- C1 witness: the cadence theorem applied at gradient_accumulation_steps 2
on a concrete three-batch pass. -/
theorem training_steps_apply_cadence_witness :
    1 ≤ 2 ∧ ∀ e ∈ _training_steps 2 [(5 : Nat), 7, 9],
      e.1 % 2 = 0 ∧ e.2.1 = (if e.1 = 0 then 1 else 2) :=
  ⟨by decide, training_steps_apply_cadence 2 (by decide) [5, 7, 9]⟩

/-- C2 (code bug, evaluated at the failing input): with two training examples,
train_batch_size 1, drop_remainder false, gradient_accumulation_steps 1 and
max_steps 5, (a) `epochs` is 1 as claimed, but (b) `get_train_tfdataset`
returns a batched iterable whose repeat flag is still false (the
`repeat(-1)` lands only in the `self.train_dataset` field, after `ds` was
already built from the unrepeated data), and (c) the first epoch runs only 2
training steps, ending at dataset exhaustion instead of at the 5-step
budget. -/
theorem train_repeat_not_consumed :
    epochsToRun ⟨5, 1, 1, false, 1, 3, 1, ⟨1⟩⟩ = 1 ∧
    get_train_tfdataset ⟨5, 1, 1, false, 1, 3, 1, ⟨1⟩⟩ (some ⟨[0, 1], false⟩) =
      .ok ⟨2, 5, ⟨[[0], [1]], false⟩, ⟨[0, 1], true⟩⟩ ∧
    trainFirstEpochStepsRun ⟨5, 1, 1, false, 1, 3, 1, ⟨1⟩⟩ ⟨[0, 1], false⟩ = .ok 2 := by
  refine ⟨by decide, ?_, ?_⟩ <;> rfl

/-- C3: in the forward step, `_run_model` adds the model's auxiliary losses
scaled by exactly one over the replica count the distribution strategy runs in
sync. -/
theorem run_model_reg_loss_scaling (args : TFTrainingArguments) (loss : ℚ)
    (model_losses : List ℚ) (logits : List ℚ) :
    (_run_model args.n_gpu model_losses loss logits).1 =
      loss + model_losses.sum / (args.strategy.numReplicasInSync : ℚ) := by
  simp only [_run_model, TFTrainingArguments.n_gpu, mul_one_div]

/-- C4: a restored optimizer iteration counter `I > 0` resumes training at
epoch `I / S + 1` (floor division by the per-epoch step count the code calls
`self.train_steps`), and a zero counter starts at epoch 1. -/
theorem start_epoch_resume (I S : Nat) :
    (0 < I → start_epoch I S = I / S + 1) ∧ start_epoch 0 S = 1 := by
  constructor
  · intro h
    simp [start_epoch, h]
  · simp [start_epoch]

/-- C4 witness: iteration counter 25 with 10 steps per epoch resumes at epoch
3; counter 0 starts at epoch 1. -/
theorem start_epoch_resume_witness : start_epoch 25 10 = 3 ∧ start_epoch 0 10 = 1 :=
  ⟨((start_epoch_resume 25 10).1 (by decide)).trans (by decide),
   (start_epoch_resume 0 10).2⟩

/-- C5: every prediction/evaluation run that returns yields a metrics dict
containing the key "eval_loss"; every caller-supplied metric key (a key of the
`compute_metrics` result) that lacks the "eval_" marker appears renamed with
that marker and no longer under its original name, while keys that already
carry the marker are kept. -/
theorem prediction_metrics_prefixed_keys (cm : Option (List ℚ → List ℚ → Dict))
    (lossOnly : Bool) (batches : List EvalBatch) (out : PredOut)
    (h : _prediction_loop cm lossOnly batches = some out) :
    "eval_loss" ∈ keys out.metrics ∧
    ∀ k ∈ keys (computedMetrics cm lossOnly batches),
      (startsWithEval k = true → k ∈ keys out.metrics) ∧
      (startsWithEval k = false →
        ("eval_" ++ k) ∈ keys out.metrics ∧ k ∉ keys out.metrics) := by
  unfold _prediction_loop at h
  cases hl : lastLossOf lossOnly batches with
  | none =>
    rw [hl] at h
    cases h
  | some loss =>
    rw [hl] at h
    injection h with h2
    subst h2
    refine ⟨finalizeMetrics_mem_eval_loss _ _, fun k hk => ⟨?_, fun hp => ⟨?_, ?_⟩⟩⟩
    · exact fun hp => finalizeMetrics_keeps_prefixed _ _ _ hk hp
    · exact finalizeMetrics_renames _ _ _ hk hp
    · intro hmem
      have h3 := finalizeMetrics_all_prefixed (computedMetrics cm lossOnly batches) loss k hmem
      rw [hp] at h3
      cases h3

/-- C5 witness: a one-batch evaluation with a caller metric "accuracy" — the
returned dict contains "eval_loss" and "eval_accuracy" and no bare
"accuracy". -/
theorem prediction_metrics_prefixed_keys_witness :
    "eval_loss" ∈ keys (finalizeMetrics [("accuracy", (1 : ℚ))] 3) ∧
    ("eval_" ++ "accuracy") ∈ keys (finalizeMetrics [("accuracy", (1 : ℚ))] 3) ∧
    "accuracy" ∉ keys (finalizeMetrics [("accuracy", (1 : ℚ))] 3) := by
  have h := prediction_metrics_prefixed_keys (some fun _ _ => [("accuracy", 1)]) false
    [⟨3, [1], [0]⟩]
    ⟨some [1], some [0], finalizeMetrics [("accuracy", (1 : ℚ))] 3⟩ rfl
  have h2 := h.2 "accuracy" (by decide)
  exact ⟨h.1, (h2.2 (by decide)).1, (h2.2 (by decide)).2⟩

/-- C6 counterexample: one accumulated micro-batch of gradient 2 on one
replica with max_grad_norm 1 — the apply step's scaling recovers 2, but the
clipped gradient handed to the optimizer is 1, so the applied gradient does
not equal g as claimed. -/
theorem accumulate_recover_clip_cex :
    ¬ ((_step 1 1 (gaUniform 1 [(2 : ℚ)] 1)).1 = [(2 : ℚ)]) := by
  have h : (_step 1 1 (gaUniform 1 [(2 : ℚ)] 1)).1 = [(1 : ℚ)] := by
    rw [gaUniform_eq]
    norm_num [_step, clip_by_value, min_def, max_def]
  intro hc
  rw [h] at hc
  norm_num at hc

/-- C6 (amended): after N ≥ 1 uniform micro-batches of per-replica gradient g
on R ≥ 1 replicas, the apply step's 1/(step_count × replica_count) scaling
recovers g exactly, and the gradient actually applied is its elementwise clip
into [-max_grad_norm, max_grad_norm] — equal to g whenever every component of
g already lies in that interval. -/
theorem accumulate_then_average_recovers (N R : Nat) (g : List ℚ) (m : ℚ)
    (hN : 1 ≤ N) (hR : 1 ≤ R) :
    (_step R m (gaUniform R g N)).1 = g.map (fun x => clip_by_value x (-m) m) ∧
    ((∀ x ∈ g, -m ≤ x ∧ x ≤ m) → (_step R m (gaUniform R g N)).1 = g) := by
  have hNR : ((N * R : Nat) : ℚ) ≠ 0 := Nat.cast_ne_zero.mpr (by positivity)
  have hcast : ((N * R : Nat) : ℚ) = (N : ℚ) * (R : ℚ) := by push_cast; ring
  have h1 : (_step R m (gaUniform R g N)).1 = g.map (fun x => clip_by_value x (-m) m) := by
    rw [gaUniform_eq]
    unfold _step
    dsimp only
    rw [List.map_map, List.map_map]
    apply list_map_congr
    intro x hx
    show clip_by_value ((N : ℚ) * (R : ℚ) * x / ((N * R : Nat) : ℚ)) (-m) m = _
    rw [hcast, mul_div_cancel_left₀]
    rw [← hcast]
    exact hNR
  refine ⟨h1, fun hb => h1.trans ?_⟩
  have h2 : ∀ x ∈ g, clip_by_value x (-m) m = x :=
    fun x hx => clip_id x m (hb x hx).1 (hb x hx).2
  rw [list_map_congr _ id g h2, List.map_id]

/-- C6 witness: three micro-batches of gradient (1/2, -1/3) on two replicas
with max_grad_norm 1 — the applied gradient is exactly (1/2, -1/3). -/
theorem accumulate_then_average_recovers_witness :
    1 ≤ 3 ∧ 1 ≤ 2 ∧
    (_step 2 1 (gaUniform 2 [(1 : ℚ)/2, -(1 : ℚ)/3] 3)).1 = [(1 : ℚ)/2, -(1 : ℚ)/3] :=
  ⟨by decide, by decide,
   (accumulate_then_average_recovers 3 2 [(1 : ℚ)/2, -(1 : ℚ)/3] 1
     (by decide) (by decide)).2 (by intro x hx; fin_cases hx <;> constructor <;> norm_num)⟩

/-- C7: at the apply step, every component of the (scaled) gradient is clipped
piecewise — to max_grad_norm when above it, to -max_grad_norm when below the
negation, unchanged otherwise — for any configured max_grad_norm ≥ 0. -/
theorem clip_elementwise_piecewise (R : Nat) (m : ℚ) (acc : GradientAccumulator)
    (hm : 0 ≤ m) :
    (_step R m acc).1 =
      acc.gradients.map (fun gradient =>
        let x := gradient / ((acc.step * R : Nat) : ℚ)
        if m < x then m else if x < -m then -m else x) := by
  unfold _step
  dsimp only
  rw [List.map_map]
  apply list_map_congr
  intro gradient hx
  exact clip_cases _ m hm

/-- C7 witness: the piecewise clipping theorem applied to one accumulated
gradient list (5, -3, 1/2) with max_grad_norm 1 — applied values
(1, -1, 1/2). -/
theorem clip_elementwise_piecewise_witness :
    (0 : ℚ) ≤ 1 ∧
    (_step 1 1 (⟨1, [5, -3, 1/2]⟩ : GradientAccumulator)).1 = [1, -1, 1/2] :=
  ⟨by norm_num,
   (clip_elementwise_piecewise 1 1 ⟨1, [5, -3, 1/2]⟩ (by norm_num)).trans (by norm_num)⟩

/-- C8: a prediction/evaluation run in prediction-loss-only mode returns a
PredictionOutput whose predictions and label_ids are both absent, no matter
what labels the batches carry. -/
theorem loss_only_no_predictions (cm : Option (List ℚ → List ℚ → Dict))
    (batches : List EvalBatch) (out : PredOut)
    (h : _prediction_loop cm true batches = some out) :
    out.predictions = none ∧ out.label_ids = none := by
  unfold _prediction_loop at h
  cases hl : lastLossOf true batches with
  | none =>
    rw [hl] at h
    cases h
  | some loss =>
    rw [hl] at h
    injection h with h2
    subst h2
    have h3 := foldl_predFoldStep_true batches (none, none, none)
    exact ⟨h3.1, h3.2⟩

/-- C8 witness: a loss-only run over one batch that does carry a label — the
output has no predictions and no label_ids. -/
theorem loss_only_no_predictions_witness :
    (⟨none, none, finalizeMetrics (computedMetrics none true [⟨3, [1], [7]⟩]) 3⟩ :
      PredOut).predictions = none ∧
    (⟨none, none, finalizeMetrics (computedMetrics none true [⟨3, [1], [7]⟩]) 3⟩ :
      PredOut).label_ids = none :=
  loss_only_no_predictions none [⟨3, [1], [7]⟩] _ rfl

/-- C9: training with no train_dataset fails with a configuration error whose
message names the missing split "train_dataset", and an evaluation run with
neither an eval_dataset argument nor one set on the trainer fails before any
prediction work with an error naming "eval_dataset"; in both cases the error
is the operation's result (fatal, nothing recovered). -/
theorem missing_dataset_error (args : TFTrainingArguments)
    (train_dataset : Option (TFDataset Nat)) (h : train_dataset = none)
    (modelFn : List Nat → EvalBatch) (cm : Option (List ℚ → List ℚ → Dict))
    (lossOnly : Bool) :
    (get_train_tfdataset args train_dataset =
        .error "Trainer: training requires a train_dataset." ∧
      substringOf "train_dataset".data
        "Trainer: training requires a train_dataset.".data = true) ∧
    (evaluate args (none : Option (TFDataset Nat)) none modelFn cm lossOnly =
        .error "Trainer: evaluation requires an eval_dataset." ∧
      substringOf "eval_dataset".data
        "Trainer: evaluation requires an eval_dataset.".data = true) := by
  subst h
  exact ⟨⟨rfl, by decide⟩, ⟨rfl, by decide⟩⟩

/-- C9 witness: the missing-dataset theorem at a concrete configuration. -/
theorem missing_dataset_error_witness :
    (get_train_tfdataset ⟨5, 1, 1, false, 1, 3, 1, ⟨1⟩⟩ (none : Option (TFDataset Nat)) =
        .error "Trainer: training requires a train_dataset." ∧
      substringOf "train_dataset".data
        "Trainer: training requires a train_dataset.".data = true) ∧
    (evaluate ⟨5, 1, 1, false, 1, 3, 1, ⟨1⟩⟩ (none : Option (TFDataset Nat)) none
        (fun _ => ⟨0, [], []⟩) none false =
        .error "Trainer: evaluation requires an eval_dataset." ∧
      substringOf "eval_dataset".data
        "Trainer: evaluation requires an eval_dataset.".data = true) :=
  missing_dataset_error ⟨5, 1, 1, false, 1, 3, 1, ⟨1⟩⟩ none rfl
    (fun _ => ⟨0, [], []⟩) none false

/-- C10: for a model passing validation, `save_model` saves to the trainer's
configured `args.output_dir` no matter what `output_dir` argument is passed;
the argument only determines the directory named in the log message. -/
theorem save_model_ignores_output_dir (output_dir : Option String)
    (argsOutputDir : String) :
    save_model true output_dir argsOutputDir = .ok (output_dir.getD argsOutputDir, argsOutputDir) :=
  rfl

end TFTrainerSpec
